import Mathlib

/-!
# Verification of the pragzip core against its specification

Shallow embedding of the parts of the pragzip repository that the claims
C1..C10 are about:

* `crc32.hpp` / `crc32.cpp` — the RFC 1952 lookup-table CRC-32 and the
  SSE4-based `crc32_sse4` routine;
* `GzipBlockFinder.hpp` — spacing validation, `get`, `find`, `insert`;
* `ThreadPool.hpp` — the priority task queue;
* `BlockFetcher.hpp` — constructor capacities, caches, the prefetch queue,
  on-demand submission and error propagation;
* the `SingleLUT` precode check (`checkPrecode` and its histogram tables).

Machine integers are modelled as `Nat` with explicit `% 2 ^ 32` where the
C++ `uint32_t` arithmetic can wrap.  Fallible operations return `Option`.
-/

namespace Pragzip

/-! ## CRC-32 (crc32.hpp and crc32.cpp)

`crc32.hpp` builds a byte-indexed lookup table for the reflected RFC 1952
polynomial `0xEDB88320` and folds it over buffers; `crc32.cpp` implements
`crc32_sse4` on top of the SSE4.2 CRC32 intrinsics. -/

/-- One iteration of the table-generation loop in `createCRC32LookupTable`
(crc32.hpp): shift right by one and conditionally fold in the reflected
RFC 1952 polynomial `0xEDB88320`. -/
def crc32Step (c : Nat) : Nat :=
  if c % 2 = 1 then 0xEDB88320 ^^^ (c >>> 1) else c >>> 1

/-- Entry `n` of `CRC32_TABLE` (crc32.hpp): eight `crc32Step` iterations
applied to `n`. -/
def crc32TableEntry (n : Nat) : Nat :=
  (List.range 8).foldl (fun c _ => crc32Step c) n

/-- `pragzip::updateCRC32( uint32_t crc, uint8_t data )` from crc32.hpp:
`(crc >> 8) ^ CRC32_TABLE[(crc ^ data) & 0xFF]`. -/
def updateCRC32 (crc data : Nat) : Nat :=
  (crc >>> 8) ^^^ crc32TableEntry ((crc ^^^ data) &&& 0xFF)

/-- The RFC 1952 CRC-32 of a byte sequence via the lookup-table path:
invert the incoming CRC, fold `updateCRC32` over the bytes in order, and
invert again.  This is what `crc32SliceByN` (crc32.hpp) computes; for sizes
below one slice it is literally its trailing byte loop. -/
def tableCRC32 (crc : Nat) (data : List Nat) : Nat :=
  (data.foldl updateCRC32 (crc ^^^ 0xFFFFFFFF)) ^^^ 0xFFFFFFFF

/-- One division step of the reflected CRC-32C (Castagnoli) polynomial
`0x82F63B78`.  This models the SSE4.2 `CRC32` instruction that backs the
`_mm_crc32_u8` / `_mm_crc32_u32` intrinsics used by `crc32_sse4`
(crc32.cpp); the intrinsics are external to the repository and their
behaviour is fixed by the instruction set architecture. -/
def crc32cStep (c : Nat) : Nat :=
  if c % 2 = 1 then 0x82F63B78 ^^^ (c >>> 1) else c >>> 1

/-- Byte-indexed table of the CRC-32C polynomial: eight `crc32cStep`
iterations, mirroring `crc32TableEntry`. -/
def crc32cTableEntry (n : Nat) : Nat :=
  (List.range 8).foldl (fun c _ => crc32cStep c) n

/-- `_mm_crc32_u8`: accumulate one byte into a CRC-32C state. -/
def mmCrc32u8 (crc byte : Nat) : Nat :=
  (crc >>> 8) ^^^ crc32cTableEntry ((crc ^^^ byte) &&& 0xFF)

/-- `pragzip::crc32_sse4( crc, data, length )` from crc32.cpp.

The word loop runs while `len >= 4` with `len = length / 4` words and
consumes groups of four 32-bit words; a group is sixteen consecutive bytes
and `_mm_crc32_u32` over little-endian loaded words equals folding
`_mm_crc32_u8` over those bytes in memory order.  After the word loop the
code sets `len = length & 3`, so only `length mod 4` bytes starting right
after the consumed groups are processed by the byte loop; any remaining
whole words that did not fill a group are skipped. -/
def crc32_sse4 (crc : Nat) (data : List Nat) : Nat :=
  let length := data.length
  let nGroups := length / 4 / 4
  let c0 := (data.take (nGroups * 16)).foldl mmCrc32u8 (crc ^^^ 0xFFFFFFFF)
  let tailBytes := (data.drop (nGroups * 16)).take (length &&& 3)
  (tailBytes.foldl mmCrc32u8 c0) ^^^ 0xFFFFFFFF

/-! ## GzipBlockFinder constructor spacing check (GzipBlockFinder.hpp) -/

/-- The `32_Ki` literal from common.hpp (not under src/): `32 * 1024`. -/
def kib32 : Nat := 32 * 1024

/-- `m_spacingInBits` as computed by the GzipBlockFinder constructor:
`spacing * CHAR_BIT` with `CHAR_BIT = 8`. -/
def spacingInBitsOf (spacing : Nat) : Nat :=
  spacing * 8

/-- The GzipBlockFinder constructor throws `std::invalid_argument` for the
spacing exactly when `m_spacingInBits < 32_Ki` (GzipBlockFinder.hpp line
46). -/
def gzipBlockFinderRejectsSpacing (spacing : Nat) : Bool :=
  spacingInBitsOf spacing < kib32

/-! ## BlockFetcher constructor capacities (BlockFetcher.hpp) -/

/-- `m_parallelization` as computed by the BlockFetcher constructor:
`parallelization == 0 ? std::max( 1, availableCores() ) : parallelization`.
`availableCores` lives in AffinityHelpers.hpp (not under src/) and is
passed in as a parameter. -/
def blockFetcherParallelization (parallelization availableCores : Nat) : Nat :=
  if parallelization = 0 then max 1 availableCores else parallelization

/-- Capacity of `m_cache`, the on-demand cache:
`std::max( size_t( 16 ), m_parallelization )`. -/
def blockFetcherCacheCapacity (parallelization availableCores : Nat) : Nat :=
  max 16 (blockFetcherParallelization parallelization availableCores)

/-- Capacity of `m_prefetchCache`: `2 * m_parallelization`. -/
def blockFetcherPrefetchCacheCapacity (parallelization availableCores : Nat) : Nat :=
  2 * blockFetcherParallelization parallelization availableCores

/-! ## ThreadPool task queue (ThreadPool.hpp)

`m_tasks` is a `std::map< int, std::deque >` from priority to FIFO deque,
modelled as an association list sorted by ascending priority.  Tasks are
identified by bare naturals; their payload is irrelevant to scheduling. -/

/-- `ThreadPool::submit`: append the task to the deque of the given
priority, creating the map entry at its sorted position when absent. -/
def submitTask : List (Int × List Nat) → Int → Nat → List (Int × List Nat)
  | [], prio, t => [(prio, [t])]
  | (p, ts) :: rest, prio, t =>
    if prio < p then (prio, [t]) :: (p, ts) :: rest
    else if prio = p then (p, ts ++ [t]) :: rest
    else (p, ts) :: submitTask rest prio t

/-- `ThreadPool::workerMain` task selection: `std::find_if` over the map in
ascending priority order picks the first non-empty deque and pops its
front. -/
def nextTask : List (Int × List Nat) → Option Nat
  | [] => none
  | (_, []) :: rest => nextTask rest
  | (_, t :: _) :: _ => some t

/-- Priority used by `BlockFetcher::prefetchNewBlocks` when submitting a
prefetch task (BlockFetcher.hpp: `m_threadPool.submit( ..., 0 )`). -/
def prefetchTaskPriority : Int := 0

/-- Priority used by `BlockFetcher::submitOnDemandTask`
(BlockFetcher.hpp: `m_threadPool.submit( ..., 0 )`). -/
def onDemandTaskPriority : Int := 0

/-- Priority used by `BlockFetcher::submitTaskWithHighPriority`
(BlockFetcher.hpp: `m_threadPool.submit( ..., -1 )`); smaller priority
values are picked first by `workerMain`. -/
def highPriorityTaskPriority : Int := -1

/-- C2, counterexample: the on-demand priority is not a strictly
higher-precedence level than the prefetch priority (both are 0: smaller
values run first in this pool), and with one pending prefetch task (100)
submitted before an on-demand task (200) a worker picks the prefetch task
first. -/
theorem onDemandTask_not_higher_priority :
    ¬ onDemandTaskPriority < prefetchTaskPriority ∧
    nextTask (submitTask (submitTask [] prefetchTaskPriority 100) onDemandTaskPriority 200)
      = some 100 := by
  decide

/-- C2, amended: `submitOnDemandTask` submits at the same priority level (0)
as prefetch submissions, so among pending priority-0 tasks a worker picks
the earliest-submitted one (the on-demand task only runs first when no
prefetch is pending). -/
theorem onDemandTask_same_priority_fifo :
    onDemandTaskPriority = prefetchTaskPriority ∧
    ∀ (pending : List Nat) (t : Nat),
      nextTask (submitTask [(prefetchTaskPriority, pending)] onDemandTaskPriority t)
        = some (pending.headD t) := by
  refine ⟨rfl, ?_⟩
  intro pending t
  cases pending <;>
    simp [submitTask, nextTask, prefetchTaskPriority, onDemandTaskPriority]

/-- C2 (amended), witness: submitting an on-demand task (200) while the
prefetch task 100 is pending at priority 0 makes a worker pick 100 first. -/
theorem onDemandTask_same_priority_fifo_witness :
    nextTask (submitTask [(prefetchTaskPriority, [100])] onDemandTaskPriority 200)
      = some 100 :=
  onDemandTask_same_priority_fifo.2 [100] 200

/-- C1: the constructor accepts a 4096-byte (4 KiB) spacing even though
4 KiB is smaller than 32 KiB, because the code compares the spacing in bits
(4096 * 8 = 32768) against the byte-count constant `32_Ki`. -/
theorem gzipBlockFinder_accepts_4KiB_spacing :
    gzipBlockFinderRejectsSpacing 4096 = false ∧ 4096 < 32 * 1024 := by
  decide

/-- C6: the SSE4 path and the RFC 1952 lookup-table path disagree: on the
single zero byte (with initial CRC 0) `crc32_sse4` computes the CRC-32C
value 0x527D5351 while the table path computes 0xD202EF8D. -/
theorem crc32_sse4_diverges_from_table :
    crc32_sse4 0 [0] ≠ tableCRC32 0 [0] := by
  decide

/-- C8: for parallelization ≥ 1 the BlockFetcher constructor sizes the
on-demand cache to max(16, N) and the prefetch cache to exactly 2·N; for
N = 0 both are computed from max(1, availableCores) instead. -/
theorem blockFetcher_capacities (n cores : Nat) :
    (1 ≤ n → blockFetcherCacheCapacity n cores = max 16 n ∧
             blockFetcherPrefetchCacheCapacity n cores = 2 * n) ∧
    (n = 0 → blockFetcherCacheCapacity n cores = max 16 (max 1 cores) ∧
             blockFetcherPrefetchCacheCapacity n cores = 2 * max 1 cores) := by
  constructor
  · intro h
    have hn : ¬ n = 0 := by omega
    simp [blockFetcherCacheCapacity, blockFetcherPrefetchCacheCapacity,
          blockFetcherParallelization, hn]
  · intro h
    subst h
    simp [blockFetcherCacheCapacity, blockFetcherPrefetchCacheCapacity,
          blockFetcherParallelization]

/-- C8, witness: at parallelization 4 with 3 available cores the capacities
are max(16, 4) = 16 and 2·4 = 8. -/
theorem blockFetcher_capacities_witness :
    blockFetcherCacheCapacity 4 3 = max 16 4 ∧
    blockFetcherPrefetchCacheCapacity 4 3 = 2 * 4 :=
  (blockFetcher_capacities 4 3).1 (by decide)

/-! ## The SingleLUT precode check

`pragzip::PrecodeCheck::SingleLUT::checkPrecode` packs the histogram of the
19 three-bit precode code lengths into a 29-bit variable-length bit-packed
word (field widths 5,1,2,3,4,5,5,4 for the non-zero count and the counts of
lengths 1..7), sums five partial histograms looked up for chunks of four
codes, detects cross-field overflows with a carryless-xor trick, and then
consults a power-of-two special-case table and a 2^24-bit validity bitmap. -/

/-- `VariableLengthPackedHistogram::MEMBER_BIT_WIDTHS`: bit widths of the
non-zero count (index 0) and of the counts of code lengths 1..7. -/
def MEMBER_BIT_WIDTHS : List Nat := [5, 1, 2, 3, 4, 5, 5, 4]

/-- `VariableLengthPackedHistogram::MEMBER_OFFSETS`: exclusive prefix sums
of the member bit widths. -/
def MEMBER_OFFSETS : List Nat := [0, 5, 6, 8, 11, 15, 20, 25]

/-- Bit width of the histogram member for value `v`. -/
def memberWidth (v : Nat) : Nat := MEMBER_BIT_WIDTHS.getD v 0

/-- Bit offset of the histogram member for value `v`. -/
def memberOffset (v : Nat) : Nat := MEMBER_OFFSETS.getD v 0

/-- `OVERFLOW_MEMBER_OFFSET` = 25 + 4 = 29. -/
def OVERFLOW_MEMBER_OFFSET : Nat := 29

/-- `LOWEST_MEMBER_BITS_MASK`: one bit at the lowest position of every
member. -/
def LOWEST_MEMBER_BITS_MASK : Nat :=
  MEMBER_OFFSETS.foldl (fun acc off => acc ||| (1 <<< off)) 0

/-- `OVERFLOW_BITS_MASK`: the lowest member bits plus everything from the
overflow member upwards (`~Histogram(0) << 29` on `uint32_t`). -/
def OVERFLOW_BITS_MASK : Nat :=
  LOWEST_MEMBER_BITS_MASK ||| ((0xFFFFFFFF <<< OVERFLOW_MEMBER_OFFSET) &&& 0xFFFFFFFF)

/-- `VariableLengthPackedHistogram::getCount`. -/
def getCount (h v : Nat) : Nat :=
  (h >>> memberOffset v) &&& ((1 <<< memberWidth v) - 1)

/-- `VariableLengthPackedHistogram::incrementCount`: a plain (wrapping)
addition onto the member, with the overflow member bit set additionally
when the member saturates. -/
def incrementCount (h v : Nat) : Nat :=
  let oldCount := getCount h v
  let newHistogram := (h + (1 <<< memberOffset v)) % 2 ^ 32
  if oldCount + 1 < 1 <<< memberWidth v then newHistogram
  else newHistogram ||| (1 <<< OVERFLOW_MEMBER_OFFSET)

/-- `VariableLengthPackedHistogram::calculateHistogram<3, 4>`, the entry of
`PRECODE_X4_TO_HISTOGRAM_LUT` at index `values`: histogram of four 3-bit
values; each non-zero value also increments the non-zero count (the bare
`++histogram`). -/
def calculateHistogram (values : Nat) : Nat :=
  (List.range 4).foldl
    (fun h i =>
      let value := (values >>> (i * 3)) &&& 7
      if value > 0 then (incrementCount h value + 1) % 2 ^ 32 else h)
    0

/-- `VariableLengthPackedHistogram::setCount` (for counts below the member
capacity, which is all uses reachable from `packHistogram`). -/
def setCount (h v count : Nat) : Nat :=
  (h &&& (0xFFFFFFFF ^^^ (((1 <<< memberWidth v) - 1) <<< memberOffset v)))
  ||| (count <<< memberOffset v)

/-- `VariableLengthPackedHistogram::packHistogram`: pack a plain histogram
(counts of code lengths 1..7) into the bit-packed format; `none` when a
count does not fit its member (the C++ also throws when the total exceeds
the 5-bit non-zero member, which cannot happen for precode histograms whose
total is at most 19). -/
def packHistogram (histogram : List Nat) : Option Nat :=
  match
    (List.range 7).foldl
      (fun acc i =>
        match acc with
        | none => none
        | some (h, nonZero) =>
          let depth := i + 1
          let count := histogram.getD i 0
          if count ≥ 1 <<< memberWidth depth then none
          else some (setCount h depth count, nonZero + count))
      (some ((0, 0) : Nat × Nat))
  with
  | none => none
  | some (h, nonZero) =>
    if nonZero ≥ 1 <<< memberWidth 0 then none else some (setCount h 0 nonZero)

/-- `POWER_OF_TWO_SPECIAL_CASES`: maps a non-zero count to the unique valid
histogram-to-look-up reachable with it, or to a value that never compares
equal.  Only the entries for 0..16 are written in the source; the array has
32 elements, so indices 17..31 are value-initialized to 0. -/
def powerOfTwoSpecialCases (n : Nat) : Nat :=
  match n with
  | 0 => 0xFFFFFFFF
  | 1 => 1
  | 2 => 2
  | 3 => 0xFFFFFFFF
  | 4 => 8
  | 5 => 0xFFFFFFFF
  | 6 => 0xFFFFFFFF
  | 7 => 0xFFFFFFFF
  | 8 => 64
  | 9 => 0xFFFFFFFF
  | 10 => 0xFFFFFFFF
  | 11 => 0xFFFFFFFF
  | 12 => 0xFFFFFFFF
  | 13 => 0xFFFFFFFF
  | 14 => 0xFFFFFFFF
  | 15 => 0xFFFFFFFF
  | 16 => 1024
  | _ => 0

/-- Modelled from the spec: `pragzip::deflate::precode::VALID_HISTOGRAMS`
lives in precode.hpp, which is not under src/.  Per the spec it is "the
enumeration of all histograms corresponding to valid complete Huffman
trees": counts of code lengths 1..7 over at most 19 precode symbols whose
Kraft sum is exactly one, i.e. `sum c_l * 2^(7-l) = 2^7`. -/
def validHistograms : List (List Nat) :=
  (List.range 3).flatMap fun c1 =>
  (List.range 5).flatMap fun c2 =>
  (List.range 9).flatMap fun c3 =>
  (List.range 17).flatMap fun c4 =>
  (List.range 20).flatMap fun c5 =>
  (List.range 20).flatMap fun c6 =>
    let partialKraft := 64 * c1 + 32 * c2 + 16 * c3 + 8 * c4 + 4 * c5 + 2 * c6
    if partialKraft ≤ 128 then
      let c7 := 128 - partialKraft
      if c1 + c2 + c3 + c4 + c5 + c6 + c7 ≤ 19 then [[c1, c2, c3, c4, c5, c6, c7]]
      else []
    else []

/-- Bit `t` of `PRECODE_HISTOGRAM_VALID_LUT`: set exactly when some valid
histogram packs (without member overflow) to a packed value whose
histogram-to-look-up part (bits 5..28) equals `t`. -/
def precodeHistogramValidLUTBit (t : Nat) : Bool :=
  validHistograms.any fun h =>
    match packHistogram h with
    | some packed => packed >>> 5 == t
    | none => false

/-- Accumulator of the chunk loop in `checkPrecode`. -/
structure PrecodeSums where
  bitLengthFrequencies : Nat
  overflowsInSum : Nat
  overflowsInLUT : Nat

/-- The chunk loop of `checkPrecode`: mask the 57 precode bits to
`codeLengthCount` codes, look up the five partial histograms, add them with
wrapping 32-bit addition and record the carryless-xor overflow bits and the
or of all partial histograms. -/
def checkPrecodeSums (next4Bits next57Bits : Nat) : PrecodeSums :=
  let codeLengthCount := 4 + next4Bits
  let precodeBits := next57Bits &&& ((1 <<< (codeLengthCount * 3)) - 1)
  (List.range 5).foldl
    (fun acc chunk =>
      let unmaskedChunk := precodeBits >>> (chunk * 12)
      let precodeChunk := if chunk ≠ 4 then unmaskedChunk &&& 0xFFF else unmaskedChunk
      let partHist := calculateHistogram precodeChunk
      let carrylessSum := acc.bitLengthFrequencies ^^^ partHist
      let bitLengthFrequencies := (acc.bitLengthFrequencies + partHist) % 2 ^ 32
      { bitLengthFrequencies
        overflowsInSum := acc.overflowsInSum ||| (carrylessSum ^^^ bitLengthFrequencies)
        overflowsInLUT := acc.overflowsInLUT ||| partHist })
    ⟨0, 0, 0⟩

/-- `histogramToLookUp` in `checkPrecode`: bits 5..28 of the summed
histogram (non-zero count and overflow members stripped). -/
def histogramToLookUpOf (next4Bits next57Bits : Nat) : Nat :=
  ((checkPrecodeSums next4Bits next57Bits).bitLengthFrequencies >>> 5) &&& ((1 <<< 24) - 1)

/-- `nonZeroCount` in `checkPrecode`: the lowest five bits of the summed
histogram. -/
def nonZeroCountOf (next4Bits next57Bits : Nat) : Nat :=
  (checkPrecodeSums next4Bits next57Bits).bitLengthFrequencies &&& 31

/-- The overflow rejection condition of `checkPrecode`: a carryless-xor
overflow bit in the sum (masked to the lowest member bits and the overflow
member) or an overflow member bit in one of the partial histograms. -/
def precodeOverflowDetected (next4Bits next57Bits : Nat) : Bool :=
  let sums := checkPrecodeSums next4Bits next57Bits
  (sums.overflowsInSum &&& OVERFLOW_BITS_MASK) ≠ 0 ||
  (sums.overflowsInLUT &&& ((0xFFFFFFFF <<< OVERFLOW_MEMBER_OFFSET) &&& 0xFFFFFFFF)) ≠ 0

/-- The errors `checkPrecode` can produce (Error.hpp is not under src/; the
three members used by `checkPrecode` suffice here). -/
inductive Error where
  | NONE
  | INVALID_CODE_LENGTHS
  | BLOATING_HUFFMAN_CODING
  deriving DecidableEq

/-- `pragzip::PrecodeCheck::SingleLUT::checkPrecode`: first the power-of-two
special-case comparison (returning NONE on a match), then the overflow
rejection, then the validity-bitmap lookup. -/
def checkPrecode (next4Bits next57Bits : Nat) : Error :=
  let histogramToLookUp := histogramToLookUpOf next4Bits next57Bits
  let nonZeroCount := nonZeroCountOf next4Bits next57Bits
  if powerOfTwoSpecialCases nonZeroCount == histogramToLookUp then Error.NONE
  else if precodeOverflowDetected next4Bits next57Bits then Error.INVALID_CODE_LENGTHS
  else if precodeHistogramValidLUTBit histogramToLookUp = false then
    Error.BLOATING_HUFFMAN_CODING
  else Error.NONE

/-- The code lengths encoded by a precode input: `4 + next4Bits` three-bit
fields of `next57Bits`, lowest first. -/
def precodeLengths (next4Bits next57Bits : Nat) : List Nat :=
  (List.range (4 + next4Bits)).map fun i => (next57Bits >>> (3 * i)) &&& 7

/-- Histogram of a precode input: counts of code lengths 1..7. -/
def precodeHistogramOf (next4Bits next57Bits : Nat) : List Nat :=
  (List.range 7).map fun i => (precodeLengths next4Bits next57Bits).count (i + 1)

/-- A histogram (counts of code lengths 1..7) corresponds to a valid
complete Huffman tree iff its Kraft sum is exactly one:
`sum c_l * 2^(7-l) = 2^7`. -/
def isKraftComplete (histogram : List Nat) : Bool :=
  (List.range 7).foldl (fun acc i => acc + histogram.getD i 0 * 2 ^ (6 - i)) 0 == 128

/-- C3, counterexample: for the precode input with `next4Bits = 0` and code
lengths `[1, 1, 0, 0]` (`next57Bits = 9`), the overflow detection fires
(the count-of-1 member saturates inside the partial-histogram LUT), yet
`checkPrecode` returns NONE because the power-of-two special case for
non-zero count 2 matches first. -/
theorem checkPrecode_overflow_yet_none :
    precodeOverflowDetected 0 9 = true ∧ checkPrecode 0 9 = Error.NONE := by
  decide

/-- C3, amended: whenever the carryless-xor overflow detection sets an
overflow bit — in the wide-integer sum or in a partial histogram from the
lookup table — `checkPrecode` returns an error different from NONE, unless
the power-of-two special-case entry for the non-zero count equals the
looked-up histogram, in which case it returns NONE before the overflow
check. -/
theorem checkPrecode_overflow_rejects_unless_specialCase
    (next4Bits next57Bits : Nat)
    (h4 : next4Bits < 16) (h57 : next57Bits < 2 ^ 57)
    (hover : precodeOverflowDetected next4Bits next57Bits = true)
    (hspecial : powerOfTwoSpecialCases (nonZeroCountOf next4Bits next57Bits)
                ≠ histogramToLookUpOf next4Bits next57Bits) :
    checkPrecode next4Bits next57Bits ≠ Error.NONE := by
  have h1 : (powerOfTwoSpecialCases (nonZeroCountOf next4Bits next57Bits)
             == histogramToLookUpOf next4Bits next57Bits) = false :=
    beq_eq_false_iff_ne.mpr hspecial
  simp [checkPrecode, h1, hover]

/-- C3, witness: the 19-code input with lengths `1, 2, 3` and sixteen `7`s
triggers the overflow detection, misses every special case, and is
rejected. -/
theorem checkPrecode_overflow_rejects_unless_specialCase_witness :
    precodeOverflowDetected 15 (2 ^ 57 - 303) = true ∧
    checkPrecode 15 (2 ^ 57 - 303) ≠ Error.NONE :=
  ⟨by decide,
   checkPrecode_overflow_rejects_unless_specialCase 15 (2 ^ 57 - 303)
     (by decide) (by decide) (by decide) (by decide)⟩

/-- C4: `checkPrecode` has a false negative.  The precode input with
`next4Bits = 15` (19 codes) and lengths `1, 2, 3, 7 ×16`
(`next57Bits = 2^57 - 303`) has histogram `{1:1, 2:1, 3:1, 7:16}` whose
Kraft sum is exactly one — a valid complete Huffman tree — yet
`checkPrecode` returns INVALID_CODE_LENGTHS: the sixteen 7-counts overflow
the 4-bit member, and the power-of-two special-case table has no entry at
non-zero count 19 (indices 17..31 are zero-initialized). -/
theorem checkPrecode_false_negative :
    precodeHistogramOf 15 (2 ^ 57 - 303) = [1, 1, 1, 0, 0, 0, 16] ∧
    isKraftComplete (precodeHistogramOf 15 (2 ^ 57 - 303)) = true ∧
    checkPrecode 15 (2 ^ 57 - 303) = Error.INVALID_CODE_LENGTHS := by
  decide

/-! ## BlockFetcher caches, prefetch queue and scheduling (BlockFetcher.hpp)

The fetcher owns two LRU caches and a map `m_prefetching` from block offset
to the future of an in-flight prefetch task.  All of these are touched only
by the owner thread, so the fetcher is modelled as a sequential state
machine.  Cache keys are block offsets (bits). -/

/-- Modelled from the spec: `Cache< size_t, shared_ptr<BlockData> >` lives
in Cache.hpp, which is not under src/.  Per spec §4.9 it is an LRU cache of
fixed capacity with `get`/`insert`/`test`/`touch`/`evict`/`clear`; entries
are kept most-recently-used first. -/
structure LruCache (V : Type) where
  capacity : Nat
  entries : List (Nat × V)
  deriving DecidableEq

/-- Modelled from the spec: `Cache::test` — key membership. -/
def LruCache.test (c : LruCache V) (k : Nat) : Bool :=
  (c.entries.find? fun e => e.1 == k).isSome

/-- Modelled from the spec: `Cache::get` — value lookup (the LRU reordering
it performs is `touch`). -/
def LruCache.getValue (c : LruCache V) (k : Nat) : Option V :=
  (c.entries.find? fun e => e.1 == k).map Prod.snd

/-- Modelled from the spec: `Cache::touch` — move the entry to the
most-recently-used position. -/
def LruCache.touch (c : LruCache V) (k : Nat) : LruCache V :=
  match c.entries.find? fun e => e.1 == k with
  | none => c
  | some e => ⟨c.capacity, e :: c.entries.filter fun e2 => e2.1 != k⟩

/-- Modelled from the spec: `Cache::insert` — put the entry at the
most-recently-used position, replacing an existing entry with the same key
and evicting least-recently-used entries beyond the capacity. -/
def LruCache.insert (c : LruCache V) (k : Nat) (v : V) : LruCache V :=
  ⟨c.capacity, ((k, v) :: c.entries.filter fun e => e.1 != k).take c.capacity⟩

/-- Modelled from the spec: `Cache::evict` — remove the entry. -/
def LruCache.evict (c : LruCache V) (k : Nat) : LruCache V :=
  ⟨c.capacity, c.entries.filter fun e => e.1 != k⟩

/-- Modelled from the spec: `Cache::clear`. -/
def LruCache.clear (c : LruCache V) : LruCache V :=
  ⟨c.capacity, []⟩

/-- `BlockFetcher::insertIntoCache`: when the fetching strategy reports
sequential access the on-demand cache is cleared before the insert.
`m_fetchingStrategy.isSequential()` comes from Prefetcher.hpp (not under
src/) and is passed in as a boolean. -/
def insertIntoCache (isSequential : Bool) (cache : LruCache V) (k : Nat) (v : V) :
    LruCache V :=
  LruCache.insert (if isSequential then LruCache.clear cache else cache) k v

deriving instance DecidableEq for Except

/-- A decode task's future: whether a zero-timeout wait reports it ready,
and the result it delivers when harvested; `Except.error` models a thrown
exception (error kinds are numbered). -/
structure BlockFuture (V : Type) where
  ready : Bool
  result : Except Nat V
  deriving DecidableEq

/-- The state of a `BlockFetcher`: the two caches, the in-flight prefetch
map `m_prefetching` (an association list with unique keys, like the
`std::map` it models) and `m_parallelization` (the thread-pool size). -/
structure FetcherState (V : Type) where
  cache : LruCache V
  prefetchCache : LruCache V
  prefetching : List (Nat × BlockFuture V)
  parallelization : Nat
  deriving DecidableEq

/-- Membership in `m_prefetching`. -/
def inPrefetching (s : FetcherState V) (k : Nat) : Bool :=
  (s.prefetching.find? fun e => e.1 == k).isSome

/-- `BlockFetcher::isInCacheOrQueue`: prefetch map, then on-demand cache,
then prefetch cache. -/
def isInCacheOrQueue (s : FetcherState V) (k : Nat) : Bool :=
  inPrefetching s k || s.cache.test k || s.prefetchCache.test k

/-- The loop body of `BlockFetcher::processReadyPrefetches`: a ready future
is harvested and erased — a successful result is inserted into the prefetch
cache, a thrown exception is caught and discarded (`catch ( ... )`); a
future that is not ready stays in the map. -/
def harvestStep (acc : List (Nat × BlockFuture V) × LruCache V) (e : Nat × BlockFuture V) :
    List (Nat × BlockFuture V) × LruCache V :=
  if e.2.ready then
    match e.2.result with
    | Except.ok v => (acc.1, acc.2.insert e.1 v)
    | Except.error _ => (acc.1, acc.2)
  else (acc.1 ++ [e], acc.2)

/-- `BlockFetcher::processReadyPrefetches`: walk `m_prefetching` applying
`harvestStep` to every entry. -/
def processReadyPrefetches (s : FetcherState V) : FetcherState V :=
  let folded := s.prefetching.foldl harvestStep ([], s.prefetchCache)
  { s with prefetching := folded.1, prefetchCache := folded.2 }

/-- `BlockFetcher::takeFromPrefetchQueue`: move the future for the offset
out of `m_prefetching`, when present. -/
def takeFromPrefetchQueue (s : FetcherState V) (k : Nat) :
    Option (BlockFuture V) × FetcherState V :=
  match s.prefetching.find? fun e => e.1 == k with
  | none => (none, s)
  | some e => (some e.2, { s with prefetching := s.prefetching.filter fun e2 => e2.1 != k })

/-- `BlockFetcher::getFromCaches`: first take a matching in-flight future
out of the prefetch map; otherwise probe the on-demand cache (a hit is
touched); otherwise probe the prefetch cache, moving a hit into the
on-demand cache via `insertIntoCache`. -/
def getFromCaches (isSequential : Bool) (s : FetcherState V) (k : Nat) :
    Option V × Option (BlockFuture V) × FetcherState V :=
  match takeFromPrefetchQueue s k with
  | (some fut, s1) => (none, some fut, s1)
  | (none, s1) =>
    match s1.cache.getValue k with
    | some v => (some v, none, { s1 with cache := s1.cache.touch k })
    | none =>
      match s1.prefetchCache.getValue k with
      | some v =>
        let s2 := { s1 with prefetchCache := s1.prefetchCache.evict k }
        (some v, none, { s2 with cache := insertIntoCache isSequential s2.cache k v })
      | none => (none, none, s1)

/-- One `BlockFetcher::get( blockOffset )` call.  `onDemandResult` is the
outcome of the decode task submitted on a full miss (`decodeBlock` is pure
virtual and external to this class).  Returns the new state, the call's
outcome — `Except.error` models an exception propagating to the caller
(`queuedResult.get()` rethrows before `insertIntoCache` runs) — and the
submission events as pairs of the state at submission time and the
submitted offset.  The `prefetchNewBlocks` calls made inside `get` are
modelled as separate `prefetch` operations. -/
def getStep (isSequential : Bool) (s : FetcherState V) (k : Nat)
    (onDemandResult : Except Nat V) :
    FetcherState V × Except Nat V × List (FetcherState V × Nat) :=
  match getFromCaches isSequential s k with
  | (some v, _, s1) => (s1, Except.ok v, [])
  | (none, some fut, s1) =>
    match fut.result with
    | Except.ok v =>
      ({ s1 with cache := insertIntoCache isSequential s1.cache k v }, Except.ok v, [])
    | Except.error e => (s1, Except.error e, [])
  | (none, none, s1) =>
    match onDemandResult with
    | Except.ok v =>
      ({ s1 with cache := insertIntoCache isSequential s1.cache k v }, Except.ok v, [(s, k)])
    | Except.error e => (s1, Except.error e, [(s, k)])

/-- One iteration of the submission loop in `BlockFetcher::prefetchNewBlocks`
for one candidate block offset: skip when the pool is saturated
(`m_prefetching.size() + 1 >= m_threadPool.size()`) or when the offset is
already cached, prefetched or in flight; otherwise submit a prefetch task
and track its future in `m_prefetching`.  The block-finder lookups and the
cache-pollution guard — which only ever drop candidates — are abstracted
into the candidate list; `futureOf` is the future of the submitted task. -/
def prefetchOne (futureOf : Nat → BlockFuture V) (s : FetcherState V) (k : Nat) :
    FetcherState V × List (FetcherState V × Nat) :=
  if s.prefetching.length + 1 ≥ s.parallelization then (s, [])
  else if isInCacheOrQueue s k then (s, [])
  else ({ s with prefetching := s.prefetching ++ [(k, futureOf k)] }, [(s, k)])

/-- `BlockFetcher::prefetchNewBlocks`: harvest ready prefetches first, then
submit the missing candidates one by one. -/
def prefetchStep (futureOf : Nat → BlockFuture V) (s : FetcherState V) (cs : List Nat) :
    FetcherState V × List (FetcherState V × Nat) :=
  cs.foldl
    (fun acc c =>
      let r := prefetchOne futureOf acc.1 c
      (r.1, acc.2 ++ r.2))
    (processReadyPrefetches s, [])

/-- The owner-thread operations on a `BlockFetcher`: an on-demand `get`, a
`prefetchNewBlocks` round, and the environment marking an in-flight future
as ready. -/
inductive FetcherOp (V : Type) where
  | get (offset : Nat) (onDemandResult : Except Nat V) (isSequential : Bool)
  | prefetch (candidates : List Nat) (futureOf : Nat → BlockFuture V)
  | markReady (offset : Nat)

/-- A worker finishing a prefetch task: its future becomes ready. -/
def markReady (s : FetcherState V) (k : Nat) : FetcherState V :=
  { s with
    prefetching := s.prefetching.map fun e =>
      if e.1 == k then (e.1, { e.2 with ready := true }) else e }

/-- One owner-thread step; returns the new state and the decode-task
submission events of the step, each paired with the state at its submission
time. -/
def stepOp (s : FetcherState V) : FetcherOp V → FetcherState V × List (FetcherState V × Nat)
  | FetcherOp.get k r seq => ((getStep seq s k r).1, (getStep seq s k r).2.2)
  | FetcherOp.prefetch cs futureOf => prefetchStep futureOf s cs
  | FetcherOp.markReady k => (markReady s k, [])

/-! ### Cache membership lemmas -/

theorem LruCache.test_eq_false_iff (c : LruCache V) (k : Nat) :
    c.test k = false ↔ ∀ e ∈ c.entries, e.1 ≠ k := by
  simp [LruCache.test, List.find?_eq_none]

theorem LruCache.getValue_eq_none_of_test (c : LruCache V) (k : Nat)
    (h : c.test k = false) : c.getValue k = none := by
  unfold LruCache.getValue
  unfold LruCache.test at h
  cases hf : c.entries.find? fun e => e.1 == k with
  | none => rfl
  | some e => rw [hf] at h; simp at h

theorem LruCache.test_eq_false_of_getValue (c : LruCache V) (k : Nat)
    (h : c.getValue k = none) : c.test k = false := by
  unfold LruCache.test
  unfold LruCache.getValue at h
  cases hf : c.entries.find? fun e => e.1 == k with
  | none => rfl
  | some e => rw [hf] at h; simp at h

theorem LruCache.test_insert_of_ne (c : LruCache V) (k k2 : Nat) (v : V)
    (h : c.test k = false) (hne : k2 ≠ k) : (c.insert k2 v).test k = false := by
  rw [LruCache.test_eq_false_iff] at h ⊢
  intro e he
  have he2 := List.take_subset _ _ he
  rcases List.mem_cons.mp he2 with rfl | hmem
  · exact hne
  · exact h e (List.mem_of_mem_filter hmem)

theorem find?_key_eq_none {β : Type} (l : List (Nat × β)) (k : Nat)
    (h : ∀ b : β, (k, b) ∉ l) : (l.find? fun e => e.1 == k) = none := by
  rw [List.find?_eq_none]
  rintro ⟨a, b⟩ hx
  simp only [beq_iff_eq]
  rintro rfl
  exact h b hx

/-! ### C9: sequential-mode insertion -/

/-- C9: when the fetching strategy reports sequential mode,
`insertIntoCache` clears the on-demand cache immediately before the
insertion, so directly afterwards the cache holds exactly the one inserted
entry (the capacity is at least max(16, parallelization) ≥ 1). -/
theorem insertIntoCache_sequential_singleton (cache : LruCache V) (k : Nat) (v : V)
    (hcap : 1 ≤ cache.capacity) :
    (insertIntoCache true cache k v).entries = [(k, v)] := by
  obtain ⟨cap, entries⟩ := cache
  cases cap with
  | zero => exact absurd hcap (by simp)
  | succ n => simp [insertIntoCache, LruCache.insert, LruCache.clear]

/-- C9, witness: inserting offset 5 under sequential mode into a capacity-16
cache holding two other entries leaves exactly the new entry. -/
theorem insertIntoCache_sequential_singleton_witness :
    (insertIntoCache true (⟨16, [(1, 10), (2, 20)]⟩ : LruCache Nat) 5 42).entries
      = [(5, 42)] :=
  insertIntoCache_sequential_singleton _ 5 42 (by decide)

/-! ### C7: error propagation asymmetry -/

theorem harvestFold_absent (k : Nat) (l : List (Nat × BlockFuture V)) :
    ∀ (acc : List (Nat × BlockFuture V) × LruCache V),
      (∀ f2 : BlockFuture V, (k, f2) ∈ l →
        f2.ready = true ∧ ∃ e0, f2.result = Except.error e0) →
      (∀ f2 : BlockFuture V, (k, f2) ∉ acc.1) →
      acc.2.test k = false →
      (∀ f2 : BlockFuture V, (k, f2) ∉ (l.foldl harvestStep acc).1) ∧
      (l.foldl harvestStep acc).2.test k = false := by
  induction l with
  | nil => intro acc _ hacc hcache; exact ⟨hacc, hcache⟩
  | cons e l ih =>
    intro acc hl hacc hcache
    rw [List.foldl_cons]
    obtain ⟨ek, er, eres⟩ := e
    have hl2 : ∀ f2 : BlockFuture V, (k, f2) ∈ l →
        f2.ready = true ∧ ∃ e0, f2.result = Except.error e0 :=
      fun f2 h => hl f2 (List.mem_cons_of_mem _ h)
    by_cases hek : ek = k
    · subst hek
      obtain ⟨hready, e0, herr⟩ := hl ⟨er, eres⟩ (List.mem_cons_self _ _)
      have her : er = true := hready
      have heres : eres = Except.error e0 := herr
      subst her
      subst heres
      exact ih acc hl2 hacc hcache
    · cases er with
      | false =>
        have hstep : harvestStep acc (ek, ⟨false, eres⟩)
            = (acc.1 ++ [(ek, ⟨false, eres⟩)], acc.2) := rfl
        rw [hstep]
        refine ih _ hl2 ?_ hcache
        intro f2 hmem
        rcases List.mem_append.mp hmem with h1 | h2
        · exact hacc f2 h1
        · exact hek (congrArg Prod.fst (List.mem_singleton.mp h2)).symm
      | true =>
        cases eres with
        | ok v =>
          have hstep : harvestStep acc (ek, ⟨true, Except.ok v⟩)
              = (acc.1, acc.2.insert ek v) := rfl
          rw [hstep]
          exact ih _ hl2 hacc (LruCache.test_insert_of_ne acc.2 k ek v hcache hek)
        | error e0 =>
          exact ih acc hl2 hacc hcache

/-- C7: (1) an exception of a decode task submitted as a prefetch is caught
and discarded when `processReadyPrefetches` harvests its ready future: the
offset is removed from `m_prefetching` and is not inserted into the
prefetch cache (so, by the submission guard, it may be re-submitted later);
(2) an exception of the decode task created for an on-demand miss
propagates out of `BlockFetcher::get` to the caller. -/
theorem blockFetcher_error_asymmetry {V : Type} :
    (∀ (s : FetcherState V) (k e0 : Nat),
       (∀ f2 : BlockFuture V, (k, f2) ∈ s.prefetching →
          f2.ready = true ∧ f2.result = Except.error e0) →
       (∃ f2 : BlockFuture V, (k, f2) ∈ s.prefetching) →
       s.prefetchCache.test k = false →
       inPrefetching (processReadyPrefetches s) k = false ∧
       (processReadyPrefetches s).prefetchCache.test k = false) ∧
    (∀ (s : FetcherState V) (k e0 : Nat) (seq : Bool),
       isInCacheOrQueue s k = false →
       (getStep seq s k (Except.error e0)).2.1 = Except.error e0) := by
  constructor
  · intro s k e0 hall _ hcache
    have hfold := harvestFold_absent k s.prefetching ([], s.prefetchCache)
      (fun f2 h => ⟨(hall f2 h).1, e0, (hall f2 h).2⟩)
      (fun f2 h => (List.not_mem_nil _ h).elim) hcache
    refine ⟨?_, hfold.2⟩
    simp only [processReadyPrefetches, inPrefetching]
    rw [find?_key_eq_none _ k hfold.1]
    rfl
  · intro s k e0 seq hmiss
    have h1 : inPrefetching s k = false := by
      cases h : inPrefetching s k
      · rfl
      · rw [isInCacheOrQueue, h] at hmiss; simp at hmiss
    have h2 : s.cache.test k = false := by
      cases h : s.cache.test k
      · rfl
      · rw [isInCacheOrQueue, h] at hmiss; simp at hmiss
    have h3 : s.prefetchCache.test k = false := by
      cases h : s.prefetchCache.test k
      · rfl
      · rw [isInCacheOrQueue, h] at hmiss; simp at hmiss
    have hfind : (s.prefetching.find? fun e => e.1 == k) = none := by
      unfold inPrefetching at h1
      cases hf : s.prefetching.find? fun e => e.1 == k with
      | none => rfl
      | some e => rw [hf] at h1; simp at h1
    have hc := LruCache.getValue_eq_none_of_test s.cache k h2
    have hpc := LruCache.getValue_eq_none_of_test s.prefetchCache k h3
    simp [getStep, getFromCaches, takeFromPrefetchQueue, hfind, hc, hpc]

/-- C7, witness: a ready errored prefetch for offset 7 is dropped (offset 7
ends up neither in flight nor in the prefetch cache), and an on-demand
`get` of offset 9 on an empty fetcher propagates error 3. -/
theorem blockFetcher_error_asymmetry_witness :
    (inPrefetching
        (processReadyPrefetches
          (⟨⟨16, []⟩, ⟨8, []⟩, [(7, ⟨true, Except.error 3⟩)], 4⟩ : FetcherState Nat)) 7
        = false ∧
      (processReadyPrefetches
          (⟨⟨16, []⟩, ⟨8, []⟩, [(7, ⟨true, Except.error 3⟩)], 4⟩ : FetcherState Nat)).prefetchCache.test 7
        = false) ∧
    (getStep false (⟨⟨16, []⟩, ⟨8, []⟩, [], 4⟩ : FetcherState Nat) 9
        (Except.error 3)).2.1 = Except.error 3 :=
  ⟨blockFetcher_error_asymmetry.1
      (⟨⟨16, []⟩, ⟨8, []⟩, [(7, ⟨true, Except.error 3⟩)], 4⟩ : FetcherState Nat) 7 3
      (by intro f2 h; simp at h; subst h; exact ⟨rfl, rfl⟩)
      ⟨⟨true, Except.error 3⟩, by simp⟩
      (by decide),
   blockFetcher_error_asymmetry.2
      (⟨⟨16, []⟩, ⟨8, []⟩, [], 4⟩ : FetcherState Nat) 9 3 false (by decide)⟩

/-! ### C5: at-most-one submission -/

theorem prefetchFold_events (futureOf : Nat → BlockFuture V) (cs : List Nat) :
    ∀ (s0 : FetcherState V) (evs : List (FetcherState V × Nat)),
      (∀ ev ∈ evs, isInCacheOrQueue ev.1 ev.2 = false) →
      ∀ ev ∈ (cs.foldl
          (fun acc c =>
            let r := prefetchOne futureOf acc.1 c
            (r.1, acc.2 ++ r.2))
          (s0, evs)).2,
        isInCacheOrQueue ev.1 ev.2 = false := by
  induction cs with
  | nil => intro s0 evs hevs; exact hevs
  | cons c cs ih =>
    intro s0 evs hevs
    rw [List.foldl_cons]
    unfold prefetchOne
    by_cases hsat : s0.prefetching.length + 1 ≥ s0.parallelization
    · simp only [hsat, if_true]
      exact ih s0 (evs ++ []) (by simpa using hevs)
    · simp only [hsat, if_false]
      by_cases hin : isInCacheOrQueue s0 c
      · simp only [hin, if_true]
        exact ih s0 (evs ++ []) (by simpa using hevs)
      · simp only [hin, if_false]
        apply ih
        intro ev hev
        rcases List.mem_append.mp hev with h1 | h2
        · exact hevs ev h1
        · have h3 := List.mem_singleton.mp h2
          subst h3
          simpa using hin

/-- C5: over every sequence of `get` and `prefetch` operations, a decode
task for a chunk offset is submitted only when that offset is in none of
the on-demand cache, the prefetch cache and the in-flight prefetch map
at the moment of submission — so an offset must leave all three before it
can be submitted again. -/
theorem blockFetcher_atMostOne_submission (s : FetcherState V) (op : FetcherOp V)
    (ev : FetcherState V × Nat) (hev : ev ∈ (stepOp s op).2) :
    inPrefetching ev.1 ev.2 = false ∧
    ev.1.cache.test ev.2 = false ∧
    ev.1.prefetchCache.test ev.2 = false := by
  cases op with
  | markReady k => simp [stepOp] at hev
  | prefetch cs futureOf =>
    have h := prefetchFold_events futureOf cs (processReadyPrefetches s) []
      (by intro ev h; simp at h) ev
    rw [stepOp, prefetchStep] at hev
    have h2 := h hev
    rw [isInCacheOrQueue] at h2
    simp only [Bool.or_eq_false_iff] at h2
    exact ⟨h2.1.1, h2.1.2, h2.2⟩
  | get k r seq =>
    simp only [stepOp] at hev
    cases hfind : s.prefetching.find? fun e => e.1 == k with
    | some e =>
      simp only [getStep, getFromCaches, takeFromPrefetchQueue, hfind] at hev
      cases hres : e.2.result <;> simp [hres] at hev
    | none =>
      cases hc : s.cache.getValue k with
      | some v =>
        rw [getStep, getFromCaches, takeFromPrefetchQueue, hfind] at hev
        simp only [hc] at hev
        simp at hev
      | none =>
        cases hpc : s.prefetchCache.getValue k with
        | some v =>
          rw [getStep, getFromCaches, takeFromPrefetchQueue, hfind] at hev
          simp only [hc, hpc] at hev
          simp at hev
        | none =>
          rw [getStep, getFromCaches, takeFromPrefetchQueue, hfind] at hev
          simp only [hc, hpc] at hev
          have hev2 : ev = (s, k) := by
            cases r <;> simpa using hev
          subst hev2
          refine ⟨?_, ?_, ?_⟩
          · unfold inPrefetching; rw [hfind]; rfl
          · exact LruCache.test_eq_false_of_getValue _ _ hc
          · exact LruCache.test_eq_false_of_getValue _ _ hpc

/-- C5, witness: an on-demand `get` of offset 5 on an empty fetcher submits
a decode task, and at that submission the offset is in none of the three
structures. -/
theorem blockFetcher_atMostOne_submission_witness :
    inPrefetching (⟨⟨16, []⟩, ⟨8, []⟩, [], 4⟩ : FetcherState Nat) 5 = false ∧
    (⟨⟨16, []⟩, ⟨8, []⟩, [], 4⟩ : FetcherState Nat).cache.test 5 = false ∧
    (⟨⟨16, []⟩, ⟨8, []⟩, [], 4⟩ : FetcherState Nat).prefetchCache.test 5 = false :=
  blockFetcher_atMostOne_submission
    (⟨⟨16, []⟩, ⟨8, []⟩, [], 4⟩ : FetcherState Nat)
    (FetcherOp.get 5 (Except.ok 1) false)
    ((⟨⟨16, []⟩, ⟨8, []⟩, [], 4⟩ : FetcherState Nat), 5)
    (by decide)

/-! ## GzipBlockFinder get/find (GzipBlockFinder.hpp)

C10 is about the generic (non-BGZF) mode: `m_isBgzfFile` is false, so
`get` never calls `gatherMoreBgzfBlocks`. -/

namespace GzipBlockFinder

/-- The non-BGZF state of a `GzipBlockFinder`: the file size in bits, the
partition spacing in bits, the deque of confirmed block offsets (sorted,
never empty) and the finalized flag. -/
structure State where
  fileSizeInBits : Nat
  spacingInBits : Nat
  blockOffsets : List Nat
  finalized : Bool
  deriving DecidableEq

/-- `m_blockOffsets.back()`; the deque is never empty (the constructor
pushes the first deflate block offset), the 0 default is unreachable. -/
def lastOffset : List Nat → Nat
  | [] => 0
  | [x] => x
  | _ :: x :: xs => lastOffset (x :: xs)

/-- `GzipBlockFinder::firstPartitionIndex`:
`m_blockOffsets.back() / m_spacingInBits + 1`. -/
def firstPartitionIndex (s : State) : Nat :=
  lastOffset s.blockOffsets / s.spacingInBits + 1

/-- Index of `std::lower_bound` over the offsets: the first position whose
element is not less than the searched value (the length when there is
none). -/
def lowerBoundIndex (l : List Nat) (x : Nat) : Nat :=
  l.findIdx fun y => x ≤ y

/-- `GzipBlockFinder::get( blockIndex )` in non-BGZF mode: known offsets
are returned directly; past them the spacing grid provides guesses
`partitionIndex * m_spacingInBits` inside the file; one index past the last
in-file guess the file size is returned; beyond that, nothing. -/
def get (s : State) (blockIndex : Nat) : Option Nat :=
  if h : blockIndex < s.blockOffsets.length then
    some (s.blockOffsets.get ⟨blockIndex, h⟩)
  else if (firstPartitionIndex s + (blockIndex - s.blockOffsets.length)) * s.spacingInBits
      < s.fileSizeInBits then
    some ((firstPartitionIndex s + (blockIndex - s.blockOffsets.length)) * s.spacingInBits)
  else if 0 < firstPartitionIndex s + (blockIndex - s.blockOffsets.length)
      ∧ (firstPartitionIndex s + (blockIndex - s.blockOffsets.length) - 1) * s.spacingInBits
          < s.fileSizeInBits then
    some s.fileSizeInBits
  else none

/-- `GzipBlockFinder::find( encodedBlockOffsetInBits )`: bisect the sorted
offsets; an exact hit returns its index; an in-file spacing-grid multiple
beyond the last confirmed offset maps back to the guess index with the
inverse of the computation in `get`; everything else throws
`std::out_of_range`, modelled as `none`. -/
def find (s : State) (off : Nat) : Option Nat :=
  if lowerBoundIndex s.blockOffsets off < s.blockOffsets.length
      ∧ s.blockOffsets.getD (lowerBoundIndex s.blockOffsets off) 0 = off then
    some (lowerBoundIndex s.blockOffsets off)
  else if lastOffset s.blockOffsets < off ∧ off < s.fileSizeInBits
      ∧ off % s.spacingInBits = 0 then
    some (s.blockOffsets.length + (off / s.spacingInBits - firstPartitionIndex s))
  else none

/-- `GzipBlockFinder::insertUnsafe`: offsets at or past the file size are
ignored; new offsets are inserted at their `lower_bound` position (for the
sorted states arising here, the `lower_bound` duplicate test is exactly
membership). -/
def insertUnsafe (s : State) (blockOffset : Nat) : State :=
  if s.fileSizeInBits ≤ blockOffset then s
  else if blockOffset ∈ s.blockOffsets then s
  else { s with blockOffsets := s.blockOffsets.orderedInsert (· ≤ ·) blockOffset }

/-- Non-BGZF states reachable through the constructor and the mutating
operations: the constructor validates the spacing and records the first
deflate block offset found after the gzip header (header parsing is
external, so that offset is arbitrary here); `insert` requires the
not-finalized precondition under which `insertUnsafe` cannot throw;
`finalize` sets the flag.  `setBlockOffsets` — the index-import path —
installs offsets the importer has verified to be strictly monotone
(spec §6) and preserves the same sortedness invariant. -/
inductive Reachable : State → Prop
  | init (fileSizeInBits spacing firstBlockOffset : Nat)
      (hspacing : ¬ spacing * 8 < kib32) :
      Reachable ⟨fileSizeInBits, spacing * 8, [firstBlockOffset], false⟩
  | insert (s : State) (blockOffset : Nat) (h : Reachable s)
      (hnotFinal : s.finalized = false) :
      Reachable (insertUnsafe s blockOffset)
  | finalize (s : State) (h : Reachable s) :
      Reachable { s with finalized := true }

theorem lastOffset_cons_cons (x y : Nat) (ys : List Nat) :
    lastOffset (x :: y :: ys) = lastOffset (y :: ys) := rfl

theorem lastOffset_mem : ∀ {l : List Nat}, l ≠ [] → lastOffset l ∈ l
  | [], h => absurd rfl h
  | [x], _ => by simp [lastOffset]
  | x :: y :: ys, _ => by
    rw [lastOffset_cons_cons]
    exact List.mem_cons_of_mem x (lastOffset_mem (by simp))

theorem le_lastOffset_of_mem :
    ∀ {l : List Nat}, l.Sorted (· < ·) → ∀ {b : Nat}, b ∈ l → b ≤ lastOffset l := by
  intro l
  induction l with
  | nil => intro _ b hb; simp at hb
  | cons y ys ih =>
    intro hs b hb
    rw [List.sorted_cons] at hs
    cases ys with
    | nil =>
      rw [List.mem_singleton.mp hb]
      exact Nat.le_refl _
    | cons z zs =>
      rw [lastOffset_cons_cons]
      rcases List.mem_cons.mp hb with rfl | hmem
      · exact Nat.le_of_lt (Nat.lt_of_lt_of_le (hs.1 _ (lastOffset_mem (by simp)))
          (Nat.le_refl _))
      · exact ih hs.2 hmem

theorem sorted_lt_orderedInsert {l : List Nat} (hs : l.Sorted (· < ·)) {x : Nat}
    (hx : x ∉ l) : (l.orderedInsert (· ≤ ·) x).Sorted (· < ·) := by
  induction l with
  | nil => simp
  | cons y ys ih =>
    rw [List.orderedInsert]
    by_cases hxy : x ≤ y
    · rw [if_pos hxy]
      have hlt : x < y :=
        Nat.lt_of_le_of_ne hxy fun h => hx (h ▸ List.mem_cons_self y ys)
      rw [List.sorted_cons]
      refine ⟨?_, hs⟩
      intro b hb
      rcases List.mem_cons.mp hb with rfl | hmem
      · exact hlt
      · exact Nat.lt_trans hlt ((List.sorted_cons.mp hs).1 b hmem)
    · rw [if_neg hxy]
      rw [List.sorted_cons] at hs
      rw [List.sorted_cons]
      refine ⟨?_, ih hs.2 fun h => hx (List.mem_cons_of_mem _ h)⟩
      intro b hb
      rcases (List.mem_orderedInsert (· ≤ ·)).mp hb with rfl | hmem
      · exact Nat.lt_of_not_le hxy
      · exact hs.1 b hmem

theorem reachable_invariant {s : State} (h : Reachable s) :
    s.blockOffsets ≠ [] ∧ s.blockOffsets.Sorted (· < ·) ∧ 0 < s.spacingInBits := by
  induction h with
  | init fileSize spacing firstOffset hspacing =>
    refine ⟨by simp, List.sorted_singleton _, ?_⟩
    show 0 < spacing * 8
    have h2 : kib32 ≤ spacing * 8 := Nat.le_of_not_lt hspacing
    have h3 : (0 : Nat) < kib32 := by norm_num [kib32]
    omega
  | insert st off hr hnf ih =>
    obtain ⟨hne, hsort, hsp⟩ := ih
    by_cases h1 : st.fileSizeInBits ≤ off
    · rw [insertUnsafe, if_pos h1]; exact ⟨hne, hsort, hsp⟩
    · rw [insertUnsafe, if_neg h1]
      by_cases h2 : off ∈ st.blockOffsets
      · rw [if_pos h2]; exact ⟨hne, hsort, hsp⟩
      · rw [if_neg h2]
        refine ⟨?_, sorted_lt_orderedInsert hsort h2, hsp⟩
        show st.blockOffsets.orderedInsert (· ≤ ·) off ≠ []
        have hlen := List.orderedInsert_length (r := (· ≤ ·)) st.blockOffsets off
        intro heq
        rw [heq] at hlen
        simp at hlen
  | finalize st hr ih => exact ih

theorem lowerBoundIndex_get {l : List Nat} (hs : l.Sorted (· < ·)) :
    ∀ (i : Nat) (hi : i < l.length), lowerBoundIndex l (l.get ⟨i, hi⟩) = i := by
  induction l with
  | nil => intro i hi; simp at hi
  | cons y ys ih =>
    intro i hi
    rw [List.sorted_cons] at hs
    cases i with
    | zero =>
      rw [lowerBoundIndex, List.findIdx_cons]
      simp
    | succ j =>
      have hj : j < ys.length := by simpa using Nat.lt_of_succ_lt_succ hi
      have hget : (y :: ys).get ⟨j + 1, hi⟩ = ys.get ⟨j, hj⟩ := rfl
      rw [hget, lowerBoundIndex, List.findIdx_cons]
      have hlt : y < ys.get ⟨j, hj⟩ := hs.1 _ (List.get_mem ys j hj)
      have hnotle : ¬ ys.get ⟨j, hj⟩ ≤ y := Nat.not_le.mpr hlt
      rw [decide_eq_false hnotle, cond_false]
      have := ih hs.2 j hj
      rw [lowerBoundIndex] at this
      omega

theorem lowerBoundIndex_of_forall_lt {l : List Nat} (x : Nat)
    (h : ∀ b ∈ l, b < x) : lowerBoundIndex l x = l.length := by
  induction l with
  | nil => rfl
  | cons y ys ih =>
    rw [lowerBoundIndex, List.findIdx_cons]
    have hnotle : ¬ x ≤ y := Nat.not_le.mpr (h y (List.mem_cons_self y ys))
    rw [decide_eq_false hnotle, cond_false, List.length_cons]
    have := ih fun b hb => h b (List.mem_cons_of_mem y hb)
    rw [lowerBoundIndex] at this
    omega

theorem lt_div_succ_mul {a b : Nat} (hb : 0 < b) : a < (a / b + 1) * b := by
  have hmod := Nat.div_add_mod a b
  have hlt := Nat.mod_lt a hb
  calc a = b * (a / b) + a % b := hmod.symm
    _ < b * (a / b) + b := Nat.add_lt_add_left hlt _
    _ = (a / b + 1) * b := by ring

/-- C10: in every reachable non-BGZF finder state, whenever `get i` returns
an offset `o` strictly inside the file (a confirmed offset or a
spacing-grid guess), `find o` returns exactly `i` without throwing. -/
theorem gzipBlockFinder_get_find_roundtrip (s : State) (hreach : Reachable s)
    (i o : Nat) (hget : get s i = some o) (ho : o < s.fileSizeInBits) :
    find s o = some i := by
  obtain ⟨hne, hsort, hsp⟩ := reachable_invariant hreach
  by_cases hi : i < s.blockOffsets.length
  · -- confirmed offset
    rw [get, dif_pos hi] at hget
    have ho2 : s.blockOffsets.get ⟨i, hi⟩ = o := by
      injection hget
    have hidx : lowerBoundIndex s.blockOffsets o = i := by
      rw [← ho2]
      exact lowerBoundIndex_get hsort i hi
    rw [find, if_pos]
    · rw [hidx]
    · refine ⟨by rw [hidx]; exact hi, ?_⟩
      rw [hidx, List.getD_eq_get _ _ hi, ho2]
  · -- spacing-grid guess
    rw [get, dif_neg hi] at hget
    by_cases hbo : (firstPartitionIndex s + (i - s.blockOffsets.length)) * s.spacingInBits
        < s.fileSizeInBits
    · rw [if_pos hbo] at hget
      have ho2 : (firstPartitionIndex s + (i - s.blockOffsets.length)) * s.spacingInBits
          = o := by
        injection hget
      have hlast : lastOffset s.blockOffsets < o := by
        rw [← ho2, firstPartitionIndex]
        calc lastOffset s.blockOffsets
            < (lastOffset s.blockOffsets / s.spacingInBits + 1) * s.spacingInBits :=
              lt_div_succ_mul hsp
          _ ≤ (lastOffset s.blockOffsets / s.spacingInBits + 1 + (i - s.blockOffsets.length))
                * s.spacingInBits :=
              Nat.mul_le_mul_right _ (by omega)
      have hallLt : ∀ b ∈ s.blockOffsets, b < o :=
        fun b hb => Nat.lt_of_le_of_lt (le_lastOffset_of_mem hsort hb) hlast
      have hidx : lowerBoundIndex s.blockOffsets o = s.blockOffsets.length :=
        lowerBoundIndex_of_forall_lt o hallLt
      rw [find, if_neg, if_pos]
      · have hdiv : o / s.spacingInBits
            = firstPartitionIndex s + (i - s.blockOffsets.length) := by
          rw [← ho2]
          exact Nat.mul_div_cancel _ hsp
        rw [hdiv]
        have : s.blockOffsets.length ≤ i := Nat.le_of_not_lt hi
        congr 1
        omega
      · refine ⟨hlast, ho, ?_⟩
        rw [← ho2]
        exact Nat.mul_mod_left _ _
      · rw [hidx]
        intro hcontra
        exact absurd hcontra.1 (Nat.lt_irrefl _)
    · rw [if_neg hbo] at hget
      by_cases hprev : 0 < firstPartitionIndex s + (i - s.blockOffsets.length)
          ∧ (firstPartitionIndex s + (i - s.blockOffsets.length) - 1) * s.spacingInBits
              < s.fileSizeInBits
      · rw [if_pos hprev] at hget
        have : s.fileSizeInBits = o := by injection hget
        omega
      · rw [if_neg hprev] at hget
        exact absurd hget (by simp)

/-- C10, witness: after construction with a 100000-bit file, 4096-byte
spacing and first block offset 64, `get 1` yields the in-file guess 32768
and `find 32768` returns 1. -/
theorem gzipBlockFinder_get_find_roundtrip_witness :
    find (⟨100000, 4096 * 8, [64], false⟩ : State) 32768 = some 1 :=
  gzipBlockFinder_get_find_roundtrip
    (⟨100000, 4096 * 8, [64], false⟩ : State)
    (Reachable.init 100000 4096 64 (by decide))
    1 32768 (by decide) (by decide)

end GzipBlockFinder

end Pragzip
